import Mathlib

set_option synthInstance.maxSize 1000
set_option synthInstance.maxHeartbeats 1000000
set_option maxHeartbeats 1000000

/-!
Shallow embedding of `source/LabelLocator.cpp` (class `LabelLocator`) from the
qdcontour2 repository, together with theorems settling the specification
claims about it.

Modelling conventions:

* The C++ nested containers
  `ParamCoordinates = std::map<int, ContourCoordinates>`,
  `ContourCoordinates = std::map<float, Coordinates>`,
  `Coordinates = std::list<std::pair<int,int>>`
  are embedded as association lists sorted by key in strictly ascending
  order, which is exactly the iteration order of `std::map`.  Map insertion
  (`operator[]`) is `updParam`/`updContour`, `std::map::find` is
  `findParam`/`findContour`.
* C++ `int` coordinates become `Int`; the `float` contour values and the
  `float` distance thresholds become `Rat` (exact versions of the machine
  reals appearing in the program).
* The program compares Euclidean distances `sqrt(dx*dx+dy*dy)`.  All such
  comparisons are embedded exactly over the squared distance, which is a
  nonnegative integer: for a threshold `t`, `sqrt d < t` holds iff
  `0 < t ∧ d < t*t` (`sqrtLt` below), and for two distances
  `sqrt d < sqrt d'` holds iff `d < d'`.  The sentinel value `-1` used by
  the C++ code for "no distance yet" is embedded as `Option.none`.
* `throw runtime_error(msg)` becomes `Except.error msg`.
-/

/-- Pixel coordinate pair, C++ `typedef std::pair<int,int> XY`. -/
abbrev XY := Int × Int

/-- C++ `typedef std::list<XY> Coordinates`. -/
abbrev Coordinates := List XY

/-- C++ `typedef std::map<float,Coordinates> ContourCoordinates`,
as a key-sorted association list. -/
abbrev ContourCoordinates := List (Rat × Coordinates)

/-- C++ `typedef std::map<int,ContourCoordinates> ParamCoordinates`,
as a key-sorted association list. -/
abbrev ParamCoordinates := List (Int × ContourCoordinates)

/-- Bad parameter value, `const int badparameter = 0` (LabelLocator.cpp:61). -/
def badparameter : Int := 0

/-- Squared Euclidean distance between two points.  The anonymous-namespace
helper `distance` (LabelLocator.cpp:71-75) returns
`sqrt((x2-x1)^2 + (y2-y1)^2)`; we carry the exact square instead. -/
def distSq (theX1 theY1 theX2 theY2 : Int) : Int :=
  (theX2 - theX1) * (theX2 - theX1) + (theY2 - theY1) * (theY2 - theY1)

/-- Exact embedding of the comparison `sqrt d < t` for a nonnegative squared
distance `d` and a threshold `t`: it holds iff `0 < t ∧ d < t*t`, which is
computed in integer arithmetic over the numerator and denominator of `t`
(see `sqrtLt_iff` below for the equivalence). -/
def sqrtLt (d : Int) (t : Rat) : Bool :=
  decide (0 < t.num ∧ d * (t.den : Int) * (t.den : Int) < t.num * t.num)

/-- `sqrtLt d t` is exactly the comparison `sqrt d < t` over the rationals:
`0 < t` together with `d < t * t`. -/
theorem sqrtLt_iff (d : Int) (t : Rat) :
    sqrtLt d t = true ↔ (0 < t ∧ (d : Rat) < t * t) := by
  unfold sqrtLt
  rw [decide_eq_true_eq]
  constructor
  · rintro ⟨h1, h2⟩
    refine ⟨Rat.num_pos.mp h1, ?_⟩
    rw [← Rat.num_div_den t, div_mul_div_comm, lt_div_iff₀ (by positivity)]
    have hc : ((d * (t.den : Int) * (t.den : Int) : Int) : Rat) <
        ((t.num * t.num : Int) : Rat) := by exact_mod_cast h2
    push_cast at hc ⊢
    linarith
  · rintro ⟨h1, h2⟩
    refine ⟨Rat.num_pos.mpr h1, ?_⟩
    rw [← Rat.num_div_den t, div_mul_div_comm,
      lt_div_iff₀ (by positivity)] at h2
    have hc : ((d * (t.den : Int) * (t.den : Int) : Int) : Rat) <
        ((t.num * t.num : Int) : Rat) := by push_cast at h2 ⊢; linarith
    exact_mod_cast hc

/-- Minimum squared distance of a point from a collection of points;
`none` embeds the `-1` returned by `mindistance` (LabelLocator.cpp:83-98)
for an empty collection. -/
def mindistanceSq (theX theY : Int) : Coordinates → Option Int
  | [] => none
  | q :: rest =>
    match mindistanceSq theX theY rest with
    | none => some (distSq theX theY q.1 q.2)
    | some b => some (min (distSq theX theY q.1 q.2) b)

/-- `std::map<float,Coordinates>::operator[](s)` followed by
`push_back p`: insert at the sorted position, or append to an existing
key's list. -/
def updContour (s : Rat) (p : XY) : ContourCoordinates → ContourCoordinates
  | [] => [(s, [p])]
  | (k, l) :: rest =>
    if s < k then (s, [p]) :: (k, l) :: rest
    else if s = k then (k, l ++ [p]) :: rest
    else (k, l) :: updContour s p rest

/-- `std::map<int,ContourCoordinates>::operator[](g)` followed by
`[s].push_back p` on the inner map. -/
def updParam (g : Int) (s : Rat) (p : XY) : ParamCoordinates → ParamCoordinates
  | [] => [(g, updContour s p [])]
  | (k, cc) :: rest =>
    if g < k then (g, updContour s p []) :: (k, cc) :: rest
    else if g = k then (k, updContour s p cc) :: rest
    else (k, cc) :: updParam g s p rest

/-- `std::map<float,Coordinates>::find`. -/
def findContour (s : Rat) : ContourCoordinates → Option Coordinates
  | [] => none
  | (k, l) :: rest => if s = k then some l else findContour s rest

/-- `std::map<int,ContourCoordinates>::find`. -/
def findParam (g : Int) : ParamCoordinates → Option ContourCoordinates
  | [] => none
  | (k, cc) :: rest => if g = k then some cc else findParam g rest

/-- One tagged coordinate of a candidate table: (group, subkey, point). -/
abbrev Entry := Int × Rat × XY

/-- Flatten one group's contour map into tagged entries. -/
def entriesCC (g : Int) : ContourCoordinates → List Entry
  | [] => []
  | (s, coords) :: rest => coords.map (fun p => (g, s, p)) ++ entriesCC g rest

/-- Flatten a whole candidate table into tagged entries, in iteration order. -/
def entries : ParamCoordinates → List Entry
  | [] => []
  | (g, cc) :: rest => entriesCC g cc ++ entries rest

/-- Total number of stored coordinates in a candidate table. -/
def totalCount (tbl : ParamCoordinates) : Nat := (entries tbl).length

/-- State of the C++ class `LabelLocator` (its member variables, with the
default-constructor values given by `mkLabelLocator`). -/
structure LabelLocator where
  itHasBBox : Bool
  itsBBoxX1 : Int
  itsBBoxY1 : Int
  itsBBoxX2 : Int
  itsBBoxY2 : Int
  itsMinDistanceToSameValue : Rat
  itsMinDistanceToDifferentValue : Rat
  itsMinDistanceToDifferentParameter : Rat
  itsActiveParameter : Int
  itsPreviousCoordinates : ParamCoordinates
  itsCurrentCoordinates : ParamCoordinates
deriving DecidableEq, Repr

deriving instance DecidableEq for Except

/-- Default constructor `LabelLocator::LabelLocator` (LabelLocator.cpp:119-132). -/
def mkLabelLocator : LabelLocator :=
  { itHasBBox := false
    itsBBoxX1 := 0
    itsBBoxY1 := 0
    itsBBoxX2 := 0
    itsBBoxY2 := 0
    itsMinDistanceToSameValue := 100
    itsMinDistanceToDifferentValue := 50
    itsMinDistanceToDifferentParameter := 50
    itsActiveParameter := 0
    itsPreviousCoordinates := []
    itsCurrentCoordinates := [] }

namespace LabelLocator

/-- `LabelLocator::empty` (LabelLocator.cpp:142-145). -/
def empty (l : LabelLocator) : Bool :=
  l.itsPreviousCoordinates.isEmpty && l.itsCurrentCoordinates.isEmpty

/-- `LabelLocator::clear` (LabelLocator.cpp:153-158). -/
def clear (l : LabelLocator) : LabelLocator :=
  { l with
    itsActiveParameter := badparameter
    itsPreviousCoordinates := []
    itsCurrentCoordinates := [] }

/-- `LabelLocator::boundingBox` (LabelLocator.cpp:176-189). -/
def boundingBox (l : LabelLocator) (theX1 theY1 theX2 theY2 : Int) :
    Except String LabelLocator :=
  if !l.empty then
    .error "LabelLocator: Cannot change bounding box once coordinates have been added"
  else if theX2 ≤ theX1 ∨ theY2 ≤ theY1 then
    .error "Empty bounding box not allowed in LabelLocator"
  else
    .ok { l with
          itHasBBox := true
          itsBBoxX1 := theX1
          itsBBoxY1 := theY1
          itsBBoxX2 := theX2
          itsBBoxY2 := theY2 }

/-- `LabelLocator::minDistanceToSameValue` (LabelLocator.cpp:199-205). -/
def minDistanceToSameValue (l : LabelLocator) (theDistance : Rat) :
    Except String LabelLocator :=
  if !l.empty then
    .error "LabelLocator: Cannot change minimum distances once coordinates have been added"
  else
    .ok { l with itsMinDistanceToSameValue := theDistance }

/-- `LabelLocator::minDistanceToDifferentValue` (LabelLocator.cpp:215-221). -/
def minDistanceToDifferentValue (l : LabelLocator) (theDistance : Rat) :
    Except String LabelLocator :=
  if !l.empty then
    .error "LabelLocator: Cannot change minimum distances once coordinates have been added"
  else
    .ok { l with itsMinDistanceToDifferentValue := theDistance }

/-- `LabelLocator::minDistanceToDifferentParameter` (LabelLocator.cpp:231-237). -/
def minDistanceToDifferentParameter (l : LabelLocator) (theDistance : Rat) :
    Except String LabelLocator :=
  if !l.empty then
    .error "LabelLocator: Cannot change minimum distances once coordinates have been added"
  else
    .ok { l with itsMinDistanceToDifferentParameter := theDistance }

/-- `LabelLocator::parameter` (LabelLocator.cpp:252-258). -/
def parameter (l : LabelLocator) (theParameter : Int) :
    Except String LabelLocator :=
  if theParameter = badparameter then
    .error "Cannot activate parameter number 0, must be nonnegative"
  else
    .ok { l with itsActiveParameter := theParameter }

/-- `LabelLocator::nextTime` (LabelLocator.cpp:271-275): clear the previous
coordinates, then swap them with the current ones. -/
def nextTime (l : LabelLocator) : LabelLocator :=
  { l with
    itsPreviousCoordinates := l.itsCurrentCoordinates
    itsCurrentCoordinates := [] }

/-- `LabelLocator::inside` (LabelLocator.cpp:290-299). -/
def inside (l : LabelLocator) (theX theY : Int) : Bool :=
  if !l.itHasBBox then true
  else
    decide (theX ≥ l.itsBBoxX1 ∧ theX < l.itsBBoxX2 ∧
            theY ≥ l.itsBBoxY1 ∧ theY < l.itsBBoxY2)

/-- `LabelLocator::add` (LabelLocator.cpp:311-332).  Note the order of the
tests: the bounding-box filter silently discards the point before the
active-parameter check can throw. -/
def add (l : LabelLocator) (theContour : Rat) (theX theY : Int) :
    Except String LabelLocator :=
  if !l.inside theX theY then .ok l
  else if l.itsActiveParameter = badparameter then
    .error "LabelLocator: Cannot add label location before setting the parameter"
  else
    .ok { l with
          itsCurrentCoordinates :=
            updParam l.itsActiveParameter theContour (theX, theY)
              l.itsCurrentCoordinates }

/-- Distance threshold chosen by `LabelLocator::removeCandidates`
(LabelLocator.cpp:536-543) when comparing a removal candidate tagged
`(g, s)` against the chosen label tagged `(theParam, theContour)`. -/
def tier (l : LabelLocator) (theParam : Int) (theContour : Rat)
    (g : Int) (s : Rat) : Rat :=
  if g ≠ theParam then l.itsMinDistanceToDifferentParameter
  else if s ≠ theContour then l.itsMinDistanceToDifferentValue
  else l.itsMinDistanceToSameValue

/-- `LabelLocator::removeCandidates` (LabelLocator.cpp:512-556): erase every
candidate strictly closer to the chosen point than the applicable
threshold.  Map nodes are never erased, only coordinates. -/
def removeCandidates (l : LabelLocator) (theCandidates : ParamCoordinates)
    (thePoint : XY) (theParam : Int) (theContour : Rat) : ParamCoordinates :=
  theCandidates.map fun gcc =>
    (gcc.1, gcc.2.map fun sl =>
      (sl.1, sl.2.filter fun p =>
        ! sqrtLt (distSq thePoint.1 thePoint.2 p.1 p.2)
            (tier l theParam theContour gcc.1 sl.1)))

/-- `LabelLocator::removeEmpties` (LabelLocator.cpp:568-588): drop emptied
coordinate lists, then drop groups whose contour map became empty. -/
def removeEmpties : ParamCoordinates → ParamCoordinates
  | [] => []
  | (g, cc) :: rest =>
    let cc' := cc.filter fun sl => !sl.2.isEmpty
    if cc'.isEmpty then removeEmpties rest else (g, cc') :: removeEmpties rest

/-- Accumulator pass of `LabelLocator::chooseClosestToBorder`
(LabelLocator.cpp:480-493): `none` embeds the initial `bestdist = -1`. -/
def chooseBorderAux (l : LabelLocator) :
    Coordinates → Option (XY × Int) → Option (XY × Int)
  | [], acc => acc
  | p :: rest, acc =>
    let xdist := min |p.1 - l.itsBBoxX1| |p.1 - l.itsBBoxX2|
    let ydist := min |p.2 - l.itsBBoxY1| |p.2 - l.itsBBoxY2|
    let dist := min xdist ydist
    let upd := match acc with
      | none => true
      | some (_, bd) => decide (dist < bd)
    chooseBorderAux l rest (if upd then some (p, dist) else acc)

/-- `LabelLocator::chooseClosestToBorder` (LabelLocator.cpp:466-495). -/
def chooseClosestToBorder (l : LabelLocator) (theCandidates : Coordinates) :
    Option XY :=
  if theCandidates.isEmpty then none
  else if !l.itHasBBox then theCandidates.head?
  else (chooseBorderAux l theCandidates none).map Prod.fst

/-- Accumulator pass of `LabelLocator::chooseClosestToPrevious`
(LabelLocator.cpp:442-452).  The accumulated best distance is an
`Option Int` squared distance, `none` embedding the `-1` sentinel, which the
code can both start from and store (when the previous choices are empty, so
that `mindistance` returns `-1`).  The update condition
`bestdist < 0 || mindist < bestdist` is reproduced case by case. -/
def choosePrevAux (thePreviousChoises : Coordinates) :
    Coordinates → Option (XY × Option Int) → Option (XY × Option Int)
  | [], acc => acc
  | p :: rest, acc =>
    let md := mindistanceSq p.1 p.2 thePreviousChoises
    let upd := match acc, md with
      | none, _ => true
      | some (_, none), _ => true
      | some (_, some _), none => true
      | some (_, some bd), some m => decide (m < bd)
    choosePrevAux thePreviousChoises rest (if upd then some (p, md) else acc)

/-- `LabelLocator::chooseClosestToPrevious` (LabelLocator.cpp:433-454). -/
def chooseClosestToPrevious (theCandidates thePreviousChoises : Coordinates) :
    Option XY :=
  (choosePrevAux thePreviousChoises theCandidates none).map Prod.fst

/-- `LabelLocator::chooseOne` (LabelLocator.cpp:406-420). -/
def chooseOne (l : LabelLocator) (theCandidates : Coordinates)
    (theParam : Int) (theContour : Rat) : Option XY :=
  match findParam theParam l.itsPreviousCoordinates with
  | none => chooseClosestToBorder l theCandidates
  | some cc =>
    match findContour theContour cc with
    | none => chooseClosestToBorder l theCandidates
    | some prev => chooseClosestToPrevious theCandidates prev

/-- Inner `for` loop of `LabelLocator::chooseLabels`
(LabelLocator.cpp:353-382): walk the contour keys of the first group in
snapshot order; skip contours whose coordinate list has been emptied by an
earlier removal; otherwise pick the best coordinate, record it in the
choices, and prune the candidates around it.  `none` embeds the
`runtime_error` thrown when `chooseOne` returns the end iterator. -/
def processContours (l : LabelLocator) (theParam : Int) :
    List Rat → ParamCoordinates → ParamCoordinates →
    Option (ParamCoordinates × ParamCoordinates)
  | [], cands, chs => some (cands, chs)
  | s :: keys, cands, chs =>
    match (findParam theParam cands).bind (findContour s) with
    | none => processContours l theParam keys cands chs
    | some coords =>
      if coords.isEmpty then processContours l theParam keys cands chs
      else
        match chooseOne l coords theParam s with
        | none => none
        | some best =>
          processContours l theParam keys
            (removeCandidates l cands best theParam s)
            (updParam theParam s best chs)

/-- Outer `while` loop of `LabelLocator::chooseLabels`
(LabelLocator.cpp:348-388), with explicit fuel bounding the number of
iterations; each iteration handles `candidates.begin()`, the group with the
smallest key, and ends with `removeEmpties`.  `none` means the fuel was
exhausted with candidates remaining (or the internal error fired). -/
def chooseLabelsLoop (l : LabelLocator) :
    Nat → ParamCoordinates → ParamCoordinates → Option ParamCoordinates
  | _, [], chs => some chs
  | 0, _ :: _, _ => none
  | fuel + 1, (g, cc) :: rest, chs =>
    match processContours l g (cc.map Prod.fst) ((g, cc) :: rest) chs with
    | none => none
    | some (cands', chs') => chooseLabelsLoop l fuel (removeEmpties cands') chs'

/-- `LabelLocator::chooseLabels` (LabelLocator.cpp:340-394): move the current
coordinates into a working candidate table, run the greedy loop, store the
choices back into the current coordinates and return them.  The fuel is the
total number of candidates, which (for positive `minSame`) bounds the number
of iterations of the C++ `while` loop. -/
def chooseLabels (l : LabelLocator) : Option (ParamCoordinates × LabelLocator) :=
  match chooseLabelsLoop l (totalCount l.itsCurrentCoordinates)
      l.itsCurrentCoordinates [] with
  | none => none
  | some chs => some (chs, { l with itsCurrentCoordinates := chs })

end LabelLocator

/-! ### Basic lemmas about the flattened entry view -/

theorem entriesCC_append (g : Int) (cc cc' : ContourCoordinates) :
    entriesCC g (cc ++ cc') = entriesCC g cc ++ entriesCC g cc' := by
  induction cc with
  | nil => rfl
  | cons hd tl ih =>
    obtain ⟨s, coords⟩ := hd
    simp [entriesCC, ih]

theorem mem_entriesCC {g : Int} {cc : ContourCoordinates} {s : Rat}
    {l : Coordinates} {p : XY} (hsl : (s, l) ∈ cc) (hp : p ∈ l) :
    (g, s, p) ∈ entriesCC g cc := by
  induction cc with
  | nil => cases hsl
  | cons hd tl ih =>
    obtain ⟨k, coords⟩ := hd
    rcases List.mem_cons.mp hsl with h | h
    · obtain ⟨rfl, rfl⟩ := Prod.mk.injEq .. ▸ h
      exact List.mem_append_left _ (List.mem_map_of_mem _ hp)
    · exact List.mem_append_right _ (ih h)

theorem mem_entries {tbl : ParamCoordinates} {g : Int} {cc : ContourCoordinates}
    {s : Rat} {l : Coordinates} {p : XY}
    (hg : (g, cc) ∈ tbl) (hsl : (s, l) ∈ cc) (hp : p ∈ l) :
    (g, s, p) ∈ entries tbl := by
  induction tbl with
  | nil => cases hg
  | cons hd tl ih =>
    obtain ⟨k, kcc⟩ := hd
    rcases List.mem_cons.mp hg with h | h
    · obtain ⟨rfl, rfl⟩ := Prod.mk.injEq .. ▸ h
      exact List.mem_append_left _ (mem_entriesCC hsl hp)
    · exact List.mem_append_right _ (ih h)

theorem findParam_mem {g : Int} {tbl : ParamCoordinates} {cc : ContourCoordinates}
    (h : findParam g tbl = some cc) : (g, cc) ∈ tbl := by
  induction tbl with
  | nil => cases h
  | cons hd tl ih =>
    obtain ⟨k, kcc⟩ := hd
    by_cases hk : g = k
    · subst hk
      simp [findParam] at h
      subst h
      exact List.mem_cons_self _ _
    · simp [findParam, hk] at h
      exact List.mem_cons_of_mem _ (ih h)

theorem findContour_mem {s : Rat} {cc : ContourCoordinates} {l : Coordinates}
    (h : findContour s cc = some l) : (s, l) ∈ cc := by
  induction cc with
  | nil => cases h
  | cons hd tl ih =>
    obtain ⟨k, kl⟩ := hd
    by_cases hk : s = k
    · subst hk
      simp [findContour] at h
      subst h
      exact List.mem_cons_self _ _
    · simp [findContour, hk] at h
      exact List.mem_cons_of_mem _ (ih h)

/-! ### Insertion into the nested maps is, at the entry level, a cons -/

theorem entriesCC_updContour (g : Int) (s : Rat) (p : XY)
    (cc : ContourCoordinates) :
    List.Perm (entriesCC g (updContour s p cc)) ((g, s, p) :: entriesCC g cc) := by
  induction cc with
  | nil => simp [updContour, entriesCC]
  | cons hd tl ih =>
    obtain ⟨k, l⟩ := hd
    by_cases h1 : s < k
    · simp [updContour, h1, entriesCC]
    · by_cases h2 : s = k
      · subst h2
        simp only [updContour, h1, if_false, if_pos rfl, entriesCC, List.map_append]
        rw [List.append_assoc]
        exact List.perm_middle
      · simp only [updContour, h1, h2, if_false, entriesCC]
        refine ((ih.append_left _).trans ?_)
        exact List.perm_middle

theorem entries_updParam (g : Int) (s : Rat) (p : XY) (tbl : ParamCoordinates) :
    List.Perm (entries (updParam g s p tbl)) ((g, s, p) :: entries tbl) := by
  induction tbl with
  | nil => simp [updParam, updContour, entries, entriesCC]
  | cons hd tl ih =>
    obtain ⟨k, cc⟩ := hd
    by_cases h1 : g < k
    · simp [updParam, h1, entries, updContour, entriesCC]
    · by_cases h2 : g = k
      · subst h2
        simp only [updParam, h1, if_false, if_pos rfl, entries]
        exact (entriesCC_updContour g s p cc).append_right _
      · simp only [updParam, h1, h2, if_false, entries]
        refine ((ih.append_left _).trans ?_)
        exact List.perm_middle

/-! ### Removal passes at the entry level -/

/-- Whether `removeCandidates` erases the entry `e` around the chosen point. -/
def eraseTest (l : LabelLocator) (thePoint : XY) (theParam : Int)
    (theContour : Rat) (e : Entry) : Bool :=
  sqrtLt (distSq thePoint.1 thePoint.2 e.2.2.1 e.2.2.2)
    (LabelLocator.tier l theParam theContour e.1 e.2.1)

theorem entriesCC_filter_inner (g : Int) (q : Rat → XY → Bool)
    (cc : ContourCoordinates) :
    entriesCC g (cc.map fun sl => (sl.1, sl.2.filter (q sl.1))) =
      (entriesCC g cc).filter fun e => q e.2.1 e.2.2 := by
  induction cc with
  | nil => rfl
  | cons hd tl ih =>
    obtain ⟨s, coords⟩ := hd
    simp only [List.map_cons, entriesCC, List.filter_append, ih]
    congr 1
    induction coords with
    | nil => rfl
    | cons p ps ihp =>
      by_cases hq : q s p
      · simp [List.filter, hq, ihp]
      · simp only [Bool.not_eq_true] at hq
        simp [List.filter, hq, ihp]

theorem fst_of_mem_entriesCC {g : Int} {cc : ContourCoordinates} {e : Entry}
    (h : e ∈ entriesCC g cc) : e.1 = g := by
  induction cc with
  | nil => cases h
  | cons hd tl ih =>
    obtain ⟨s, coords⟩ := hd
    rcases List.mem_append.mp h with h | h
    · obtain ⟨p, _, rfl⟩ := List.mem_map.mp h
      rfl
    · exact ih h

theorem entries_removeCandidates (l : LabelLocator) (cands : ParamCoordinates)
    (pt : XY) (g : Int) (s : Rat) :
    entries (LabelLocator.removeCandidates l cands pt g s) =
      (entries cands).filter fun e => ! eraseTest l pt g s e := by
  induction cands with
  | nil => rfl
  | cons hd tl ih =>
    obtain ⟨k, cc⟩ := hd
    simp only [LabelLocator.removeCandidates, List.map_cons, entries,
      List.filter_append] at *
    rw [ih]
    congr 1
    rw [entriesCC_filter_inner k
      (fun s' p => ! sqrtLt (distSq pt.1 pt.2 p.1 p.2)
        (LabelLocator.tier l g s k s')) cc]
    refine List.filter_congr ?_
    intro e he
    simp [eraseTest, fst_of_mem_entriesCC he]

theorem entriesCC_filter_nonempty (g : Int) (cc : ContourCoordinates) :
    entriesCC g (cc.filter fun sl => !sl.2.isEmpty) = entriesCC g cc := by
  induction cc with
  | nil => rfl
  | cons hd tl ih =>
    obtain ⟨s, coords⟩ := hd
    cases coords with
    | nil => simpa [List.filter, entriesCC] using ih
    | cons p ps => simp [List.filter, entriesCC, ih]

theorem entriesCC_eq_nil_of_all_empty (g : Int) (cc : ContourCoordinates)
    (h : (cc.filter fun sl => !sl.2.isEmpty).isEmpty = true) :
    entriesCC g cc = [] := by
  induction cc with
  | nil => rfl
  | cons hd tl ih =>
    obtain ⟨s, coords⟩ := hd
    cases coords with
    | nil =>
      simp only [List.filter, List.isEmpty_nil, Bool.not_true] at h ⊢
      exact ih (by simpa [List.filter] using h)
    | cons p ps => simp [List.filter] at h

theorem entries_removeEmpties (cands : ParamCoordinates) :
    entries (LabelLocator.removeEmpties cands) = entries cands := by
  induction cands with
  | nil => rfl
  | cons hd tl ih =>
    obtain ⟨g, cc⟩ := hd
    by_cases h : ((cc.filter fun sl => !sl.2.isEmpty).isEmpty : Bool)
    · simp only [LabelLocator.removeEmpties, h, if_pos, entries, ih]
      rw [entriesCC_eq_nil_of_all_empty g cc h]
      rfl
    · simp only [LabelLocator.removeEmpties, h, if_neg, entries, ih,
        Bool.false_eq_true, if_false]
      rw [entriesCC_filter_nonempty]

/-! ### The selector picks a member of its candidate list, and succeeds on a
nonempty list -/

theorem chooseBorderAux_mem (l : LabelLocator) :
    ∀ (cands : Coordinates) (acc : Option (XY × Int)) (p : XY) (d : Int),
      LabelLocator.chooseBorderAux l cands acc = some (p, d) →
      (∃ d₀, acc = some (p, d₀)) ∨ p ∈ cands
  | [], acc, p, d, h => .inl ⟨d, h⟩
  | q :: rest, acc, p, d, h => by
    simp only [LabelLocator.chooseBorderAux] at h
    rcases chooseBorderAux_mem l rest _ p d h with ⟨d₀, hacc⟩ | hmem
    · split at hacc
      · rcases Option.some.injEq .. ▸ hacc with ⟨rfl, rfl⟩
        exact .inr (List.mem_cons_self _ _)
      · exact .inl ⟨d₀, hacc⟩
    · exact .inr (List.mem_cons_of_mem _ hmem)

theorem chooseBorderAux_isSome (l : LabelLocator) :
    ∀ (cands : Coordinates) (acc : Option (XY × Int)),
      acc.isSome = true → (LabelLocator.chooseBorderAux l cands acc).isSome = true
  | [], _, h => h
  | q :: rest, acc, h => by
    simp only [LabelLocator.chooseBorderAux]
    split
    · exact chooseBorderAux_isSome l rest _ rfl
    · exact chooseBorderAux_isSome l rest _ h

theorem choosePrevAux_mem (prev : Coordinates) :
    ∀ (cands : Coordinates) (acc : Option (XY × Option Int)) (p : XY)
      (d : Option Int),
      LabelLocator.choosePrevAux prev cands acc = some (p, d) →
      (∃ d₀, acc = some (p, d₀)) ∨ p ∈ cands
  | [], acc, p, d, h => .inl ⟨d, h⟩
  | q :: rest, acc, p, d, h => by
    simp only [LabelLocator.choosePrevAux] at h
    rcases choosePrevAux_mem prev rest _ p d h with ⟨d₀, hacc⟩ | hmem
    · split at hacc
      · rcases Option.some.injEq .. ▸ hacc with ⟨rfl, rfl⟩
        exact .inr (List.mem_cons_self _ _)
      · exact .inl ⟨d₀, hacc⟩
    · exact .inr (List.mem_cons_of_mem _ hmem)

theorem choosePrevAux_isSome (prev : Coordinates) :
    ∀ (cands : Coordinates) (acc : Option (XY × Option Int)),
      acc.isSome = true → (LabelLocator.choosePrevAux prev cands acc).isSome = true
  | [], _, h => h
  | q :: rest, acc, h => by
    simp only [LabelLocator.choosePrevAux]
    split
    · exact choosePrevAux_isSome prev rest _ rfl
    · exact choosePrevAux_isSome prev rest _ h

theorem chooseClosestToBorder_mem {l : LabelLocator} {cands : Coordinates}
    {p : XY} (h : LabelLocator.chooseClosestToBorder l cands = some p) :
    p ∈ cands := by
  unfold LabelLocator.chooseClosestToBorder at h
  split at h
  · cases h
  · split at h
    · exact List.mem_of_mem_head? h
    · obtain ⟨⟨q, d⟩, hq, rfl⟩ := Option.map_eq_some'.mp h
      rcases chooseBorderAux_mem l cands none q d hq with ⟨d₀, h0⟩ | hm
      · cases h0
      · exact hm

theorem chooseClosestToPrevious_mem {cands prev : Coordinates} {p : XY}
    (h : LabelLocator.chooseClosestToPrevious cands prev = some p) :
    p ∈ cands := by
  unfold LabelLocator.chooseClosestToPrevious at h
  obtain ⟨⟨q, d⟩, hq, rfl⟩ := Option.map_eq_some'.mp h
  rcases choosePrevAux_mem prev cands none q d hq with ⟨d₀, h0⟩ | hm
  · cases h0
  · exact hm

theorem chooseOne_mem {l : LabelLocator} {cands : Coordinates} {g : Int}
    {s : Rat} {p : XY} (h : LabelLocator.chooseOne l cands g s = some p) :
    p ∈ cands := by
  unfold LabelLocator.chooseOne at h
  split at h
  · exact chooseClosestToBorder_mem h
  · split at h
    · exact chooseClosestToBorder_mem h
    · exact chooseClosestToPrevious_mem h

theorem isSome_map_fst {α β : Type} (x : Option (α × β)) :
    (Option.map Prod.fst x).isSome = x.isSome := by
  cases x <;> rfl

theorem chooseClosestToBorder_isSome (l : LabelLocator) (q : XY)
    (rest : Coordinates) :
    (LabelLocator.chooseClosestToBorder l (q :: rest)).isSome = true := by
  unfold LabelLocator.chooseClosestToBorder
  simp only [List.isEmpty_cons, Bool.false_eq_true, if_false]
  split
  · rfl
  · rw [isSome_map_fst]
    simp only [LabelLocator.chooseBorderAux]
    exact chooseBorderAux_isSome l rest _ rfl

theorem chooseClosestToPrevious_isSome (q : XY) (rest prev : Coordinates) :
    (LabelLocator.chooseClosestToPrevious (q :: rest) prev).isSome = true := by
  unfold LabelLocator.chooseClosestToPrevious
  rw [isSome_map_fst]
  simp only [LabelLocator.choosePrevAux]
  exact choosePrevAux_isSome prev rest _ rfl

theorem chooseOne_isSome (l : LabelLocator) (q : XY) (rest : Coordinates)
    (g : Int) (s : Rat) :
    (LabelLocator.chooseOne l (q :: rest) g s).isSome = true := by
  unfold LabelLocator.chooseOne
  split
  · exact chooseClosestToBorder_isSome l q rest
  · split
    · exact chooseClosestToBorder_isSome l q rest
    · exact chooseClosestToPrevious_isSome q rest _

/-! ### The pairwise-separation invariant of the greedy loop -/

theorem distSq_comm (x1 y1 x2 y2 : Int) :
    distSq x1 y1 x2 y2 = distSq x2 y2 x1 y1 := by
  unfold distSq
  ring

theorem tier_comm (l : LabelLocator) (g : Int) (s : Rat) (g' : Int) (s' : Rat) :
    LabelLocator.tier l g s g' s' = LabelLocator.tier l g' s' g s := by
  unfold LabelLocator.tier
  by_cases h1 : g' = g
  · subst h1
    by_cases h2 : s' = s
    · subst h2
      rfl
    · simp [h2, Ne.symm h2]
  · simp [h1, Ne.symm h1]

/-- Two tagged entries are adequately separated: the chosen-tier distance
test of `removeCandidates` does not fire between them.  Since `sqrtLt d t`
embeds `sqrt d < t` exactly, this says the Euclidean distance between the
points is at least the applicable threshold (with thresholds `≤ 0`
trivially satisfied). -/
def entrySep (l : LabelLocator) (e e' : Entry) : Prop :=
  sqrtLt (distSq e.2.2.1 e.2.2.2 e'.2.2.1 e'.2.2.2)
    (LabelLocator.tier l e.1 e.2.1 e'.1 e'.2.1) = false

theorem entrySep_comm (l : LabelLocator) (e e' : Entry) :
    entrySep l e e' ↔ entrySep l e' e := by
  unfold entrySep
  rw [distSq_comm, tier_comm]

/-- Pairwise compliance of a whole table: every two stored points, tagged
with their (group, subkey), pass the separation test at the applicable
tier. -/
def compliantTbl (l : LabelLocator) (tbl : ParamCoordinates) : Prop :=
  (entries tbl).Pairwise (entrySep l)

/-- Every remaining candidate is adequately separated from every choice
already accepted. -/
def candsOK (l : LabelLocator) (cands chs : ParamCoordinates) : Prop :=
  ∀ e ∈ entries cands, ∀ e' ∈ entries chs, entrySep l e e'

theorem step_preserves (l : LabelLocator) (cands chs : ParamCoordinates)
    (g : Int) (s : Rat) (c : XY) (hc : (g, s, c) ∈ entries cands)
    (h1 : compliantTbl l chs) (h2 : candsOK l cands chs) :
    compliantTbl l (updParam g s c chs) ∧
    candsOK l (LabelLocator.removeCandidates l cands c g s)
      (updParam g s c chs) := by
  have hperm := entries_updParam g s c chs
  have hsymm : ∀ {a b : Entry}, entrySep l a b → entrySep l b a :=
    fun h => (entrySep_comm l _ _).mp h
  constructor
  · refine (hperm.pairwise_iff hsymm).mpr ?_
    refine List.pairwise_cons.mpr ⟨?_, h1⟩
    intro e' he'
    exact h2 _ hc e' he'
  · intro e he e' he'
    rw [entries_removeCandidates] at he
    obtain ⟨hemem, hkeep⟩ := List.mem_filter.mp he
    rcases List.mem_cons.mp (hperm.mem_iff.mp he') with rfl | hmem
    · unfold entrySep
      unfold eraseTest at hkeep
      rw [distSq_comm, tier_comm]
      simpa using hkeep
    · exact h2 e hemem e' hmem

theorem processContours_invariant (l : LabelLocator) (g : Int) :
    ∀ (keys : List Rat) (cands chs cands' chs' : ParamCoordinates),
      LabelLocator.processContours l g keys cands chs = some (cands', chs') →
      compliantTbl l chs → candsOK l cands chs →
      compliantTbl l chs' ∧ candsOK l cands' chs' := by
  intro keys
  induction keys with
  | nil =>
    intro cands chs cands' chs' h h1 h2
    simp only [LabelLocator.processContours, Option.some.injEq,
      Prod.mk.injEq] at h
    obtain ⟨rfl, rfl⟩ := h
    exact ⟨h1, h2⟩
  | cons s keys ih =>
    intro cands chs cands' chs' h h1 h2
    cases hb : (findParam g cands).bind (findContour s) with
    | none =>
      simp only [LabelLocator.processContours, hb] at h
      exact ih cands chs cands' chs' h h1 h2
    | some coords =>
      simp only [LabelLocator.processContours, hb] at h
      by_cases hemp : coords.isEmpty
      · rw [if_pos hemp] at h
        exact ih cands chs cands' chs' h h1 h2
      · rw [if_neg hemp] at h
        cases hco : LabelLocator.chooseOne l coords g s with
        | none =>
          simp only [hco] at h
          exact Option.noConfusion h
        | some best =>
          simp only [hco] at h
          obtain ⟨cc, hfp, hfc⟩ := Option.bind_eq_some.mp hb
          have hmem : (g, s, best) ∈ entries cands :=
            mem_entries (findParam_mem hfp) (findContour_mem hfc)
              (chooseOne_mem hco)
          obtain ⟨h1', h2'⟩ := step_preserves l cands chs g s best hmem h1 h2
          exact ih _ _ cands' chs' h h1' h2'

theorem chooseLabelsLoop_invariant (l : LabelLocator) :
    ∀ (fuel : Nat) (cands chs out : ParamCoordinates),
      LabelLocator.chooseLabelsLoop l fuel cands chs = some out →
      compliantTbl l chs → candsOK l cands chs →
      compliantTbl l out := by
  intro fuel
  induction fuel with
  | zero =>
    intro cands chs out h h1 h2
    cases cands with
    | nil =>
      simp only [LabelLocator.chooseLabelsLoop, Option.some.injEq] at h
      exact h ▸ h1
    | cons hd tl => cases h
  | succ fuel ih =>
    intro cands chs out h h1 h2
    cases cands with
    | nil =>
      simp only [LabelLocator.chooseLabelsLoop, Option.some.injEq] at h
      exact h ▸ h1
    | cons hd tl =>
      obtain ⟨g, cc⟩ := hd
      simp only [LabelLocator.chooseLabelsLoop] at h
      cases hp : LabelLocator.processContours l g (cc.map Prod.fst)
          ((g, cc) :: tl) chs with
      | none => rw [hp] at h; cases h
      | some pr =>
        obtain ⟨cands', chs'⟩ := pr
        rw [hp] at h
        obtain ⟨h1', h2'⟩ :=
          processContours_invariant l g (cc.map Prod.fst) ((g, cc) :: tl)
            chs cands' chs' hp h1 h2
        refine ih (LabelLocator.removeEmpties cands') chs' out h h1' ?_
        intro e he e' he'
        rw [entries_removeEmpties] at he
        exact h2' e he e' he'

/-! ### Termination of the greedy loop -/

/-- No group maps to an empty contour map and no contour maps to an empty
coordinate list.  Tables built through `add`, and the output of
`removeEmpties`, always satisfy this. -/
def noEmptiesB (tbl : ParamCoordinates) : Bool :=
  tbl.all fun gcc => !gcc.2.isEmpty && gcc.2.all fun sl => !sl.2.isEmpty

theorem noEmptiesB_removeEmpties (tbl : ParamCoordinates) :
    noEmptiesB (LabelLocator.removeEmpties tbl) = true := by
  induction tbl with
  | nil => rfl
  | cons hd tl ih =>
    obtain ⟨g, cc⟩ := hd
    simp only [LabelLocator.removeEmpties]
    by_cases h : ((cc.filter fun sl => !sl.2.isEmpty).isEmpty : Bool)
    · simpa [h] using ih
    · simp only [h, Bool.false_eq_true, if_false]
      rw [noEmptiesB, List.all_cons]
      refine Bool.and_eq_true .. ▸ ⟨?_, ih⟩
      rw [Bool.and_eq_true]
      refine ⟨by simpa using h, ?_⟩
      rw [List.all_eq_true]
      intro sl hsl
      exact (List.mem_filter.mp hsl).2

theorem length_filter_lt_of_mem {α : Type} {a : α} {xs : List α}
    {p : α → Bool} (ha : a ∈ xs) (hpa : p a = false) :
    (xs.filter p).length < xs.length := by
  induction xs with
  | nil => cases ha
  | cons b bs ih =>
    rcases List.mem_cons.mp ha with rfl | hmem
    · rw [List.filter_cons, hpa]
      simp only [Bool.false_eq_true, if_false, List.length_cons]
      exact Nat.lt_succ_of_le (List.length_filter_le _ _)
    · rw [List.filter_cons]
      by_cases hb : p b
      · simp only [hb, if_pos, List.length_cons]
        exact Nat.succ_lt_succ (ih hmem)
      · simp only [hb, Bool.false_eq_true, if_false, List.length_cons]
        exact Nat.lt_succ_of_lt (ih hmem)

theorem totalCount_removeCandidates_le (l : LabelLocator)
    (cands : ParamCoordinates) (c : XY) (g : Int) (s : Rat) :
    totalCount (LabelLocator.removeCandidates l cands c g s) ≤
      totalCount cands := by
  rw [totalCount, totalCount, entries_removeCandidates]
  exact List.length_filter_le _ _

theorem totalCount_removeCandidates_lt (l : LabelLocator)
    (cands : ParamCoordinates) (c : XY) (g : Int) (s : Rat)
    (hmem : (g, s, c) ∈ entries cands)
    (hpos : 0 < l.itsMinDistanceToSameValue) :
    totalCount (LabelLocator.removeCandidates l cands c g s) <
      totalCount cands := by
  rw [totalCount, totalCount, entries_removeCandidates]
  have herase : eraseTest l c g s (g, s, c) = true := by
    unfold eraseTest LabelLocator.tier
    simp only [ne_eq, not_true_eq_false, if_neg, if_false]
    have h0 : distSq c.1 c.2 c.1 c.2 = 0 := by
      unfold distSq
      ring
    rw [h0, sqrtLt_iff]
    refine ⟨hpos, ?_⟩
    push_cast
    exact mul_pos hpos hpos
  exact length_filter_lt_of_mem hmem (by simp [herase])

theorem processContours_count_le (l : LabelLocator) (g : Int) :
    ∀ (keys : List Rat) (cands chs cands' chs' : ParamCoordinates),
      LabelLocator.processContours l g keys cands chs = some (cands', chs') →
      totalCount cands' ≤ totalCount cands := by
  intro keys
  induction keys with
  | nil =>
    intro cands chs cands' chs' h
    simp only [LabelLocator.processContours, Option.some.injEq,
      Prod.mk.injEq] at h
    exact h.1 ▸ Nat.le_refl _
  | cons s keys ih =>
    intro cands chs cands' chs' h
    cases hb : (findParam g cands).bind (findContour s) with
    | none =>
      simp only [LabelLocator.processContours, hb] at h
      exact ih cands chs cands' chs' h
    | some coords =>
      simp only [LabelLocator.processContours, hb] at h
      by_cases hemp : coords.isEmpty
      · rw [if_pos hemp] at h
        exact ih cands chs cands' chs' h
      · rw [if_neg hemp] at h
        cases hco : LabelLocator.chooseOne l coords g s with
        | none =>
          simp only [hco] at h
          exact Option.noConfusion h
        | some best =>
          simp only [hco] at h
          exact Nat.le_trans (ih _ _ cands' chs' h)
            (totalCount_removeCandidates_le l cands best g s)

theorem processContours_isSome (l : LabelLocator) (g : Int) :
    ∀ (keys : List Rat) (cands chs : ParamCoordinates),
      (LabelLocator.processContours l g keys cands chs).isSome = true := by
  intro keys
  induction keys with
  | nil => intro cands chs; rfl
  | cons s keys ih =>
    intro cands chs
    cases hb : (findParam g cands).bind (findContour s) with
    | none =>
      simp only [LabelLocator.processContours, hb]
      exact ih cands chs
    | some coords =>
      simp only [LabelLocator.processContours, hb]
      by_cases hemp : coords.isEmpty
      · rw [if_pos hemp]
        exact ih cands chs
      · rw [if_neg hemp]
        cases coords with
        | nil => simp at hemp
        | cons q rest =>
          cases hco : LabelLocator.chooseOne l (q :: rest) g s with
          | none =>
            have := chooseOne_isSome l q rest g s
            rw [hco] at this
            cases this
          | some best =>
            simp only [hco]
            exact ih _ _

theorem totalCount_pos_of_noEmpties (g : Int) (cc : ContourCoordinates)
    (rest : ParamCoordinates)
    (h : noEmptiesB ((g, cc) :: rest) = true) :
    0 < totalCount ((g, cc) :: rest) := by
  rw [noEmptiesB, List.all_cons, Bool.and_eq_true, Bool.and_eq_true] at h
  obtain ⟨⟨hcc, hall⟩, _⟩ := h
  cases cc with
  | nil => simp at hcc
  | cons sl cc₂ =>
    obtain ⟨s, coords⟩ := sl
    have hco : ¬coords.isEmpty := by
      rw [List.all_cons, Bool.and_eq_true] at hall
      simpa using hall.1
    cases coords with
    | nil => simp at hco
    | cons p ps =>
      simp [totalCount, entries, entriesCC]

/-- The head-group pass of one outer iteration strictly shrinks the
candidate count, provided the same-value threshold is positive and the
head group is not degenerate (no empty buckets). -/
theorem processContours_head_lt (l : LabelLocator) (g : Int)
    (cc : ContourCoordinates) (rest : ParamCoordinates)
    (chs cands' chs' : ParamCoordinates)
    (hpos : 0 < l.itsMinDistanceToSameValue)
    (hne : noEmptiesB ((g, cc) :: rest) = true)
    (h : LabelLocator.processContours l g (cc.map Prod.fst) ((g, cc) :: rest)
        chs = some (cands', chs')) :
    totalCount cands' < totalCount ((g, cc) :: rest) := by
  rw [noEmptiesB, List.all_cons, Bool.and_eq_true, Bool.and_eq_true] at hne
  obtain ⟨⟨hcc, hall⟩, _⟩ := hne
  cases cc with
  | nil => simp at hcc
  | cons sl cc₂ =>
    obtain ⟨s₀, coords₀⟩ := sl
    have hco : coords₀.isEmpty = false := by
      rw [List.all_cons, Bool.and_eq_true] at hall
      simpa using hall.1
    have hb : (findParam g (((g, (s₀, coords₀) :: cc₂) :: rest))).bind
        (findContour s₀) = some coords₀ := by
      simp [findParam, findContour]
    simp only [List.map_cons, LabelLocator.processContours, hb] at h
    rw [hco] at h
    simp only [Bool.false_eq_true, if_false] at h
    cases coords₀ with
    | nil => simp at hco
    | cons q qrest =>
      cases hch : LabelLocator.chooseOne l (q :: qrest) g s₀ with
      | none =>
        have := chooseOne_isSome l q qrest g s₀
        rw [hch] at this
        cases this
      | some best =>
        simp only [hch] at h
        have hmem : (g, s₀, best) ∈
            entries ((g, (s₀, q :: qrest) :: cc₂) :: rest) :=
          mem_entries (List.mem_cons_self _ _) (List.mem_cons_self _ _)
            (chooseOne_mem hch)
        exact Nat.lt_of_le_of_lt
          (processContours_count_le l g _ _ _ cands' chs' h)
          (totalCount_removeCandidates_lt l _ best g s₀ hmem hpos)

theorem chooseLabelsLoop_isSome (l : LabelLocator)
    (hpos : 0 < l.itsMinDistanceToSameValue) :
    ∀ (fuel : Nat) (cands chs : ParamCoordinates),
      noEmptiesB cands = true → totalCount cands ≤ fuel →
      (LabelLocator.chooseLabelsLoop l fuel cands chs).isSome = true := by
  intro fuel
  induction fuel with
  | zero =>
    intro cands chs hne hle
    cases cands with
    | nil => rfl
    | cons hd tl =>
      obtain ⟨g, cc⟩ := hd
      have := totalCount_pos_of_noEmpties g cc tl hne
      omega
  | succ fuel ih =>
    intro cands chs hne hle
    cases cands with
    | nil => rfl
    | cons hd tl =>
      obtain ⟨g, cc⟩ := hd
      simp only [LabelLocator.chooseLabelsLoop]
      cases hp : LabelLocator.processContours l g (cc.map Prod.fst)
          ((g, cc) :: tl) chs with
      | none =>
        have := processContours_isSome l g (cc.map Prod.fst) ((g, cc) :: tl) chs
        rw [hp] at this
        cases this
      | some pr =>
        obtain ⟨cands', chs'⟩ := pr
        have hlt := processContours_head_lt l g cc tl chs cands' chs' hpos hne hp
        refine ih (LabelLocator.removeEmpties cands') chs'
          (noEmptiesB_removeEmpties cands') ?_
        have : totalCount (LabelLocator.removeEmpties cands') =
            totalCount cands' := by
          rw [totalCount, totalCount, entries_removeEmpties]
        omega

/-! ### The choices are drawn from the candidates -/

theorem processContours_entries_subset (l : LabelLocator) (g : Int) :
    ∀ (keys : List Rat) (cands chs cands' chs' : ParamCoordinates),
      LabelLocator.processContours l g keys cands chs = some (cands', chs') →
      (∀ e ∈ entries cands', e ∈ entries cands) ∧
      (∀ e ∈ entries chs', e ∈ entries chs ∨ e ∈ entries cands) := by
  intro keys
  induction keys with
  | nil =>
    intro cands chs cands' chs' h
    simp only [LabelLocator.processContours, Option.some.injEq,
      Prod.mk.injEq] at h
    obtain ⟨rfl, rfl⟩ := h
    exact ⟨fun e he => he, fun e he => .inl he⟩
  | cons s keys ih =>
    intro cands chs cands' chs' h
    cases hb : (findParam g cands).bind (findContour s) with
    | none =>
      simp only [LabelLocator.processContours, hb] at h
      exact ih cands chs cands' chs' h
    | some coords =>
      simp only [LabelLocator.processContours, hb] at h
      by_cases hemp : coords.isEmpty
      · rw [if_pos hemp] at h
        exact ih cands chs cands' chs' h
      · rw [if_neg hemp] at h
        cases hco : LabelLocator.chooseOne l coords g s with
        | none =>
          simp only [hco] at h
          exact Option.noConfusion h
        | some best =>
          simp only [hco] at h
          obtain ⟨cc, hfp, hfc⟩ := Option.bind_eq_some.mp hb
          have hbest : (g, s, best) ∈ entries cands :=
            mem_entries (findParam_mem hfp) (findContour_mem hfc)
              (chooseOne_mem hco)
          obtain ⟨ihc, ihh⟩ := ih _ _ cands' chs' h
          have hsub : ∀ e ∈ entries (LabelLocator.removeCandidates l cands
              best g s), e ∈ entries cands := by
            intro e he
            rw [entries_removeCandidates] at he
            exact (List.mem_filter.mp he).1
          refine ⟨fun e he => hsub e (ihc e he), ?_⟩
          intro e he
          rcases ihh e he with hin | hin
          · rcases List.mem_cons.mp
                ((entries_updParam g s best chs).mem_iff.mp hin) with rfl | hold
            · exact .inr hbest
            · exact .inl hold
          · exact .inr (hsub e hin)

theorem chooseLabelsLoop_entries_subset (l : LabelLocator) :
    ∀ (fuel : Nat) (cands chs out : ParamCoordinates),
      LabelLocator.chooseLabelsLoop l fuel cands chs = some out →
      ∀ e ∈ entries out, e ∈ entries chs ∨ e ∈ entries cands := by
  intro fuel
  induction fuel with
  | zero =>
    intro cands chs out h e he
    cases cands with
    | nil =>
      simp only [LabelLocator.chooseLabelsLoop, Option.some.injEq] at h
      exact .inl (h ▸ he)
    | cons hd tl => cases h
  | succ fuel ih =>
    intro cands chs out h e he
    cases cands with
    | nil =>
      simp only [LabelLocator.chooseLabelsLoop, Option.some.injEq] at h
      exact .inl (h ▸ he)
    | cons hd tl =>
      obtain ⟨g, cc⟩ := hd
      simp only [LabelLocator.chooseLabelsLoop] at h
      cases hp : LabelLocator.processContours l g (cc.map Prod.fst)
          ((g, cc) :: tl) chs with
      | none =>
        rw [hp] at h
        exact Option.noConfusion h
      | some pr =>
        obtain ⟨cands', chs'⟩ := pr
        rw [hp] at h
        obtain ⟨hsc, hsh⟩ :=
          processContours_entries_subset l g (cc.map Prod.fst)
            ((g, cc) :: tl) chs cands' chs' hp
        rcases ih (LabelLocator.removeEmpties cands') chs' out h e he with
          hin | hin
        · exact hsh e hin
        · rw [entries_removeEmpties] at hin
          exact .inr (hsc e hin)

theorem chooseLabels_entries_subset {l : LabelLocator}
    {tbl : ParamCoordinates} {l' : LabelLocator}
    (h : LabelLocator.chooseLabels l = some (tbl, l')) :
    ∀ e ∈ entries tbl, e ∈ entries l.itsCurrentCoordinates := by
  unfold LabelLocator.chooseLabels at h
  cases hl : LabelLocator.chooseLabelsLoop l
      (totalCount l.itsCurrentCoordinates) l.itsCurrentCoordinates [] with
  | none =>
    rw [hl] at h
    exact Option.noConfusion h
  | some chs =>
    rw [hl] at h
    obtain ⟨rfl, rfl⟩ : chs = tbl ∧
        ({ l with itsCurrentCoordinates := chs } : LabelLocator) = l' := by
      have := Option.some.injEq .. ▸ h
      exact ⟨congrArg Prod.fst this, congrArg Prod.snd this⟩
    intro e he
    rcases chooseLabelsLoop_entries_subset l _ _ _ _ hl e he with hin | hin
    · cases hin
    · exact hin

/-! ### Reachable states of the locator -/

/-- States reachable from the default-constructed locator through the public
interface; the `Except`-valued operations contribute a step only when they
return normally (on `throw` the C++ object is left unchanged). -/
inductive Reach : LabelLocator → Prop where
  | start : Reach mkLabelLocator
  | clear {l : LabelLocator} : Reach l → Reach l.clear
  | bbox {l l' : LabelLocator} {x1 y1 x2 y2 : Int} :
      Reach l → l.boundingBox x1 y1 x2 y2 = .ok l' → Reach l'
  | same {l l' : LabelLocator} {d : Rat} :
      Reach l → l.minDistanceToSameValue d = .ok l' → Reach l'
  | diffValue {l l' : LabelLocator} {d : Rat} :
      Reach l → l.minDistanceToDifferentValue d = .ok l' → Reach l'
  | diffParam {l l' : LabelLocator} {d : Rat} :
      Reach l → l.minDistanceToDifferentParameter d = .ok l' → Reach l'
  | param {l l' : LabelLocator} {p : Int} :
      Reach l → l.parameter p = .ok l' → Reach l'
  | next {l : LabelLocator} : Reach l → Reach l.nextTime
  | push {l l' : LabelLocator} {s : Rat} {x y : Int} :
      Reach l → l.add s x y = .ok l' → Reach l'
  | choose {l l' : LabelLocator} {tbl : ParamCoordinates} :
      Reach l → l.chooseLabels = some (tbl, l') → Reach l'

/-- All stored points of a table pass the `inside` test of the locator. -/
def insideTbl (l : LabelLocator) (tbl : ParamCoordinates) : Bool :=
  (entries tbl).all fun e => l.inside e.2.2.1 e.2.2.2

theorem empty_tables {l : LabelLocator} (h : l.empty = true) :
    l.itsPreviousCoordinates = [] ∧ l.itsCurrentCoordinates = [] := by
  unfold LabelLocator.empty at h
  rw [Bool.and_eq_true] at h
  refine ⟨?_, ?_⟩
  · cases hp : l.itsPreviousCoordinates with
    | nil => rfl
    | cons a t =>
      rw [hp] at h
      simp at h
  · cases hc : l.itsCurrentCoordinates with
    | nil => rfl
    | cons a t =>
      rw [hc] at h
      simp at h

theorem chooseLabels_state {l : LabelLocator} {tbl : ParamCoordinates}
    {l' : LabelLocator} (h : LabelLocator.chooseLabels l = some (tbl, l')) :
    l' = { l with itsCurrentCoordinates := tbl } := by
  unfold LabelLocator.chooseLabels at h
  cases hl : LabelLocator.chooseLabelsLoop l
      (totalCount l.itsCurrentCoordinates) l.itsCurrentCoordinates [] with
  | none =>
    rw [hl] at h
    exact Option.noConfusion h
  | some chs =>
    rw [hl] at h
    injection h with h1
    obtain ⟨h2, h3⟩ := Prod.mk.injEq .. ▸ h1
    rw [← h3, h2]

/-- Every reachable state keeps all stored coordinates inside the bounding
box test (trivially true while no bounding box is configured, since
`inside` then always answers true). -/
theorem reach_insideTbl {l : LabelLocator} (h : Reach l) :
    insideTbl l l.itsCurrentCoordinates = true ∧
    insideTbl l l.itsPreviousCoordinates = true := by
  induction h with
  | start => exact ⟨rfl, rfl⟩
  | clear hR ih => exact ⟨rfl, rfl⟩
  | bbox hR heq ih =>
    rename_i l l' x1 y1 x2 y2
    unfold LabelLocator.boundingBox at heq
    by_cases hE : l.empty
    · rw [hE] at heq
      simp only [Bool.not_true, Bool.false_eq_true, if_false] at heq
      by_cases hdeg : (x2 ≤ x1 ∨ y2 ≤ y1)
      · rw [if_pos hdeg] at heq
        exact Except.noConfusion heq
      · rw [if_neg hdeg] at heq
        injection heq with heq
        obtain ⟨hprev, hcur⟩ := empty_tables hE
        rw [← heq]
        constructor
        · show insideTbl _ l.itsCurrentCoordinates = true
          rw [hcur]
          rfl
        · show insideTbl _ l.itsPreviousCoordinates = true
          rw [hprev]
          rfl
    · rw [eq_false_of_ne_true hE] at heq
      simp only [Bool.not_false, if_true] at heq
      exact Except.noConfusion heq
  | same hR heq ih =>
    rename_i l l' d
    unfold LabelLocator.minDistanceToSameValue at heq
    by_cases hE : l.empty
    · rw [hE] at heq
      simp only [Bool.not_true, Bool.false_eq_true, if_false] at heq
      injection heq with heq
      rw [← heq]
      exact ih
    · rw [eq_false_of_ne_true hE] at heq
      simp only [Bool.not_false, if_true] at heq
      exact Except.noConfusion heq
  | diffValue hR heq ih =>
    rename_i l l' d
    unfold LabelLocator.minDistanceToDifferentValue at heq
    by_cases hE : l.empty
    · rw [hE] at heq
      simp only [Bool.not_true, Bool.false_eq_true, if_false] at heq
      injection heq with heq
      rw [← heq]
      exact ih
    · rw [eq_false_of_ne_true hE] at heq
      simp only [Bool.not_false, if_true] at heq
      exact Except.noConfusion heq
  | diffParam hR heq ih =>
    rename_i l l' d
    unfold LabelLocator.minDistanceToDifferentParameter at heq
    by_cases hE : l.empty
    · rw [hE] at heq
      simp only [Bool.not_true, Bool.false_eq_true, if_false] at heq
      injection heq with heq
      rw [← heq]
      exact ih
    · rw [eq_false_of_ne_true hE] at heq
      simp only [Bool.not_false, if_true] at heq
      exact Except.noConfusion heq
  | param hR heq ih =>
    rename_i l l' p
    unfold LabelLocator.parameter at heq
    by_cases hp : p = badparameter
    · rw [if_pos hp] at heq
      exact Except.noConfusion heq
    · rw [if_neg hp] at heq
      injection heq with heq
      rw [← heq]
      exact ih
  | next hR ih => exact ⟨rfl, ih.1⟩
  | push hR heq ih =>
    rename_i l l' s x y
    unfold LabelLocator.add at heq
    by_cases hin : l.inside x y
    · rw [hin] at heq
      simp only [Bool.not_true, Bool.false_eq_true, if_false] at heq
      by_cases hap : l.itsActiveParameter = badparameter
      · rw [if_pos hap] at heq
        exact Except.noConfusion heq
      · rw [if_neg hap] at heq
        injection heq with heq
        rw [← heq]
        refine ⟨?_, ih.2⟩
        rw [insideTbl, List.all_eq_true]
        intro e he
        have hperm := entries_updParam l.itsActiveParameter s (x, y)
          l.itsCurrentCoordinates
        rcases List.mem_cons.mp (hperm.mem_iff.mp he) with rfl | hold
        · exact hin
        · exact List.all_eq_true.mp ih.1 e hold
    · rw [eq_false_of_ne_true hin] at heq
      simp only [Bool.not_false, if_true] at heq
      injection heq with heq
      rw [← heq]
      exact ih
  | choose hR heq ih =>
    rename_i l l' tbl
    obtain rfl := chooseLabels_state heq
    refine ⟨?_, ih.2⟩
    rw [insideTbl, List.all_eq_true]
    intro e he
    exact List.all_eq_true.mp ih.1 e (chooseLabels_entries_subset heq e he)

/-- A stored entry lies in the configured half-open bounding box. -/
def inBoxB (l : LabelLocator) (e : Entry) : Bool :=
  decide (l.itsBBoxX1 ≤ e.2.2.1 ∧ e.2.2.1 < l.itsBBoxX2 ∧
          l.itsBBoxY1 ≤ e.2.2.2 ∧ e.2.2.2 < l.itsBBoxY2)

theorem empty_false_of_entries {l : LabelLocator}
    (h : entries l.itsCurrentCoordinates ++ entries l.itsPreviousCoordinates ≠ []) :
    l.empty = false := by
  by_cases hE : l.empty
  · obtain ⟨hp, hc⟩ := empty_tables hE
    rw [hp, hc] at h
    simp [entries] at h
  · exact eq_false_of_ne_true hE

/-! ### Concrete scenario states -/

/-- Temporal-bias scenario state: candidates `(0,0)` and `(100,100)` for
group 1, subkey 5, previous choice `(2,2)`, `minSame = 1`. -/
def scenTemporal : LabelLocator :=
  { mkLabelLocator with
    itsMinDistanceToSameValue := 1
    itsActiveParameter := 1
    itsPreviousCoordinates := [(1, [(5, [(2, 2)])])]
    itsCurrentCoordinates := [(1, [(5, [(0, 0), (100, 100)])])] }

/-- Cascade-removal scenario state: group 1 subkey 1 candidates
`(0,0),(10,10)`, subkey 2 candidate `(5,5)`, `minSame = 20`,
`minDifferentSubkey = 1`, no previous choices, no bounding box. -/
def scenCascade : LabelLocator :=
  { mkLabelLocator with
    itsMinDistanceToSameValue := 20
    itsMinDistanceToDifferentValue := 1
    itsActiveParameter := 1
    itsCurrentCoordinates := [(1, [(1, [(0, 0), (10, 10)]), (2, [(5, 5)])])] }

/-- Expected cascade-removal result table. -/
def cascadeChoice : ParamCoordinates :=
  [(1, [(1, [((0 : Int), (0 : Int))]), (2, [(5, 5)])])]

/-- A locator with `minSame = 0` and one candidate. -/
def scenZeroSame : LabelLocator :=
  { mkLabelLocator with
    itsMinDistanceToSameValue := 0
    itsActiveParameter := 1
    itsCurrentCoordinates := [(1, [(1, [(0, 0)])])] }

/-- Default-threshold locator with two candidates 14.1 pixels apart. -/
def scenDefaults : LabelLocator :=
  { mkLabelLocator with
    itsActiveParameter := 1
    itsCurrentCoordinates := [(1, [(1, [(0, 0), (10, 10)])])] }

/-- Choice table computed from `scenDefaults`. -/
def defaultsChoice : ParamCoordinates := [(1, [(1, [((0 : Int), (0 : Int))])])]

/-- Locator with the bounding box `(0,0,10,10)` configured and nothing else. -/
def stBB : LabelLocator :=
  { mkLabelLocator with
    itHasBBox := true
    itsBBoxX2 := 10
    itsBBoxY2 := 10 }

/-- `stBB` after `parameter(1)`. -/
def stBBp : LabelLocator :=
  { stBB with itsActiveParameter := 1 }

/-- Locator reached by configuring the box `(0,0,10,10)`, activating group 1
and adding the point `(5,5)` for subkey 1. -/
def stW : LabelLocator :=
  { mkLabelLocator with
    itHasBBox := true
    itsBBoxX2 := 10
    itsBBoxY2 := 10
    itsActiveParameter := 1
    itsCurrentCoordinates := [(1, [(1, [((5 : Int), (5 : Int))])])] }

/-! ### The claims -/

/-- C1: pairwise separation of the result of `chooseLabels`.  For every
configuration and candidate table, any two points of the returned Choice
table with identical (group, subkey) are at least `minSame` apart, points
with identical group but differing subkey at least `minDifferentSubkey`
apart, and points with differing group at least `minDifferentGroup` apart;
a distance exactly equal to the threshold is compliant because the removal
test is a strict `<` (`sqrtLt`). -/
theorem chooseLabels_pairwise_separation (l : LabelLocator)
    (tbl : ParamCoordinates) (l' : LabelLocator)
    (h : LabelLocator.chooseLabels l = some (tbl, l')) :
    compliantTbl l tbl := by
  unfold LabelLocator.chooseLabels at h
  cases hl : LabelLocator.chooseLabelsLoop l
      (totalCount l.itsCurrentCoordinates) l.itsCurrentCoordinates [] with
  | none =>
    rw [hl] at h
    exact Option.noConfusion h
  | some chs =>
    rw [hl] at h
    injection h with h1
    obtain ⟨h2, _⟩ := Prod.mk.injEq .. ▸ h1
    rw [← h2]
    refine chooseLabelsLoop_invariant l _ _ _ _ hl List.Pairwise.nil ?_
    intro e he e' he'
    cases he'

/-- Witness for C1 on the cascade-removal scenario. -/
theorem chooseLabels_pairwise_separation_witness :
    compliantTbl scenCascade cascadeChoice :=
  chooseLabels_pairwise_separation scenCascade cascadeChoice
    { scenCascade with itsCurrentCoordinates := cascadeChoice } (by decide)

/-- C2 counterexample: with `minSame = 0` (which the setter accepts) the
chosen candidate is not erased — a full pass of the outer loop body over the
single candidate leaves the candidate table unchanged, so no iteration
bound in the total candidate count suffices and the C++ `while` loop never
terminates (the fuelled embedding returns `none` at fuel `N = 1`). -/
theorem chooseLabels_minSameZero_counterexample :
    scenZeroSame.itsMinDistanceToSameValue = 0 ∧
    totalCount scenZeroSame.itsCurrentCoordinates = 1 ∧
    LabelLocator.processContours scenZeroSame 1 [(1 : Rat)]
        scenZeroSame.itsCurrentCoordinates [] =
      some (scenZeroSame.itsCurrentCoordinates,
        [(1, [(1, [((0 : Int), (0 : Int))])])]) ∧
    LabelLocator.chooseLabels scenZeroSame = none := by
  refine ⟨by decide, by decide, by decide, by decide⟩

/-- C2 amended: provided the same-value threshold is positive (as any
meaningful configuration has, the default being 100) and no bucket of the
candidate table is empty (as holds for every table built through `add`),
each outer iteration removes at least the chosen candidate itself,
strictly shrinking the total candidate count, and the loop terminates
within `N` iterations for `N` total candidates (the embedding's fuel is
exactly `N`). -/
theorem chooseLabels_terminates (l : LabelLocator)
    (hpos : 0 < l.itsMinDistanceToSameValue)
    (hne : noEmptiesB l.itsCurrentCoordinates = true) :
    (∀ (g : Int) (cc : ContourCoordinates)
        (rest chs cands' chs' : ParamCoordinates),
        noEmptiesB ((g, cc) :: rest) = true →
        LabelLocator.processContours l g (cc.map Prod.fst) ((g, cc) :: rest)
            chs = some (cands', chs') →
        totalCount cands' < totalCount ((g, cc) :: rest)) ∧
    (LabelLocator.chooseLabels l).isSome = true := by
  refine ⟨fun g cc rest chs cands' chs' hne' hp =>
    processContours_head_lt l g cc rest chs cands' chs' hpos hne' hp, ?_⟩
  have hs := chooseLabelsLoop_isSome l hpos
    (totalCount l.itsCurrentCoordinates) l.itsCurrentCoordinates [] hne
    (Nat.le_refl _)
  unfold LabelLocator.chooseLabels
  cases hl : LabelLocator.chooseLabelsLoop l
      (totalCount l.itsCurrentCoordinates) l.itsCurrentCoordinates [] with
  | none =>
    rw [hl] at hs
    cases hs
  | some chs =>
    rfl

/-- Witness for C2 on the default-threshold scenario. -/
theorem chooseLabels_terminates_witness :
    (LabelLocator.chooseLabels scenDefaults).isSome = true :=
  (chooseLabels_terminates scenDefaults (by decide) (by decide)).2

/-- C3 counterexample: in the temporal-bias scenario the code does choose
`(0,0)` first (closest to the previous choice `(2,2)`), but with
`minSame = 1` the far candidate `(100,100)` is not removed (distance ≈ 141
is not `< 1`), so the next iteration of the loop chooses it as well: the
returned Choice is `[(0,0), (100,100)]`, not the singleton `[(0,0)]`
claimed.  The first conjunct shows the scenario state is produced by the
public interface. -/
theorem temporalBias_counterexample :
    ((((LabelLocator.minDistanceToSameValue mkLabelLocator 1).bind
        fun l => l.parameter 1).bind
        fun l => l.add 5 2 2).map
        (fun l => l.nextTime)).bind
        (fun l => (l.add 5 0 0).bind fun l => l.add 5 100 100) =
      Except.ok scenTemporal ∧
    (LabelLocator.chooseLabels scenTemporal).map Prod.fst =
      some [(1, [(5, [((0 : Int), (0 : Int)), (100, 100)])])] ∧
    (LabelLocator.chooseLabels scenTemporal).map Prod.fst ≠
      some [(1, [(5, [((0 : Int), (0 : Int))])])] := by
  refine ⟨by decide, by decide, by decide⟩

/-- C3 amended: in the temporal-bias scenario `chooseLabels` returns for
(group 1, subkey 5.0) exactly the list `[(0,0), (100,100)]` — the temporal
bias picks `(0,0)` first, and `(100,100)` survives removal and is chosen in
the following iteration. -/
theorem temporalBias_amended :
    LabelLocator.chooseLabels scenTemporal =
      some ([(1, [(5, [((0 : Int), (0 : Int)), (100, 100)])])],
        { scenTemporal with
          itsCurrentCoordinates :=
            [(1, [(5, [((0 : Int), (0 : Int)), (100, 100)])])] }) := by
  decide

/-- C4 counterexample: `add` tests the bounding box before the
active-parameter check, so after `clear()` (which keeps the box configured)
an `add` whose point lies outside the box returns normally as a silent
no-op instead of failing. -/
theorem add_after_clear_counterexample :
    LabelLocator.boundingBox mkLabelLocator 0 0 10 10 = Except.ok stBB ∧
    LabelLocator.empty stBB.clear = true ∧
    LabelLocator.add stBB.clear 1 100 100 = Except.ok stBB.clear := by
  refine ⟨by decide, by decide, by decide⟩

/-- C4 amended: immediately after `clear()`, `empty()` is true, and every
subsequent `add` whose point passes the bounding-box filter (in particular
every `add` when no box is configured) fails with the invalid-state error;
an `add` whose point is outside a configured box is instead a silent
no-op. -/
theorem add_after_clear_invalid_state (l : LabelLocator) (s : Rat)
    (x y : Int) (h : LabelLocator.inside l.clear x y = true) :
    LabelLocator.empty l.clear = true ∧
    LabelLocator.add l.clear s x y = Except.error
      "LabelLocator: Cannot add label location before setting the parameter" := by
  refine ⟨rfl, ?_⟩
  unfold LabelLocator.add
  rw [h]
  simp [LabelLocator.clear, badparameter]

/-- Witness for C4 on the default-constructed locator. -/
theorem add_after_clear_invalid_state_witness :
    LabelLocator.inside mkLabelLocator.clear 3 4 = true ∧
    (LabelLocator.empty mkLabelLocator.clear = true ∧
     LabelLocator.add mkLabelLocator.clear 1 3 4 = Except.error
       "LabelLocator: Cannot add label location before setting the parameter") :=
  ⟨by decide, add_after_clear_invalid_state mkLabelLocator 1 3 4 (by decide)⟩

/-- C5: in every reachable state with a configured bounding box, every
coordinate stored in the candidate table and in the previous-choice table
lies inside the half-open box (`x1 ≤ x < x2` and `y1 ≤ y < y2`); the
invariant is preserved by every operation. -/
theorem containment_invariant {l : LabelLocator} (hR : Reach l)
    (hbb : l.itHasBBox = true) :
    ((entries l.itsCurrentCoordinates ++ entries l.itsPreviousCoordinates).all
        (inBoxB l)) = true := by
  obtain ⟨hc, hp⟩ := reach_insideTbl hR
  rw [List.all_append, Bool.and_eq_true]
  constructor
  · rw [List.all_eq_true]
    intro e he
    have hx := List.all_eq_true.mp hc e he
    unfold LabelLocator.inside at hx
    rw [hbb] at hx
    simp only [Bool.not_true, Bool.false_eq_true, if_false,
      decide_eq_true_eq] at hx
    simp only [inBoxB, decide_eq_true_eq]
    exact ⟨hx.1, hx.2.1, hx.2.2.1, hx.2.2.2⟩
  · rw [List.all_eq_true]
    intro e he
    have hx := List.all_eq_true.mp hp e he
    unfold LabelLocator.inside at hx
    rw [hbb] at hx
    simp only [Bool.not_true, Bool.false_eq_true, if_false,
      decide_eq_true_eq] at hx
    simp only [inBoxB, decide_eq_true_eq]
    exact ⟨hx.1, hx.2.1, hx.2.2.1, hx.2.2.2⟩

/-- Witness for C5 on a state reached through boundingBox, parameter and
add. -/
theorem containment_invariant_witness :
    stW.itHasBBox = true ∧
    ((entries stW.itsCurrentCoordinates ++
        entries stW.itsPreviousCoordinates).all (inBoxB stW)) = true :=
  ⟨rfl, containment_invariant
    (@Reach.push stBBp stW 1 5 5
      (@Reach.param stBB stBBp 1
        (@Reach.bbox mkLabelLocator stBB 0 0 10 10 Reach.start (by decide))
        (by decide))
      (by decide)) rfl⟩

/-- C6: `nextTime` sets the previous-choice table to the candidate table as
it was at the moment of the call and empties the candidate table; combined
with `chooseLabels`, which stores its returned choices back into the
candidate table, the previous-choice table after `chooseLabels; nextTime`
is exactly the Choice just returned. -/
theorem nextTime_frame_rotation (l : LabelLocator) :
    (LabelLocator.nextTime l).itsPreviousCoordinates =
      l.itsCurrentCoordinates ∧
    (LabelLocator.nextTime l).itsCurrentCoordinates = [] ∧
    ∀ (tbl : ParamCoordinates) (l' : LabelLocator),
      LabelLocator.chooseLabels l = some (tbl, l') →
      l'.itsCurrentCoordinates = tbl ∧
      (LabelLocator.nextTime l').itsPreviousCoordinates = tbl ∧
      (LabelLocator.nextTime l').itsCurrentCoordinates = [] := by
  refine ⟨rfl, rfl, fun tbl l' h => ?_⟩
  obtain rfl := chooseLabels_state h
  exact ⟨rfl, rfl, rfl⟩

/-- Witness for C6 on the default-threshold scenario. -/
theorem nextTime_frame_rotation_witness :
    ({ scenDefaults with itsCurrentCoordinates := defaultsChoice }
        : LabelLocator).itsCurrentCoordinates = defaultsChoice ∧
    (LabelLocator.nextTime
        { scenDefaults with itsCurrentCoordinates := defaultsChoice }
      ).itsPreviousCoordinates = defaultsChoice ∧
    (LabelLocator.nextTime
        { scenDefaults with itsCurrentCoordinates := defaultsChoice }
      ).itsCurrentCoordinates = [] :=
  (nextTime_frame_rotation scenDefaults).2.2 defaultsChoice
    { scenDefaults with itsCurrentCoordinates := defaultsChoice } (by decide)

/-- C7: `boundingBox` fails when the box is degenerate or when any
candidate exists (current or previous); each of the three minimum-distance
setters fails whenever any candidate exists; on success each call updates
only the setting named, and success implies `empty()` held, i.e.
configuration can only change while both tables are empty. -/
theorem configuration_immutability (l : LabelLocator) (x1 y1 x2 y2 : Int)
    (d : Rat) :
    ((x2 ≤ x1 ∨ y2 ≤ y1) →
      ∀ l', LabelLocator.boundingBox l x1 y1 x2 y2 ≠ Except.ok l') ∧
    (entries l.itsCurrentCoordinates ++ entries l.itsPreviousCoordinates ≠ [] →
      (∀ l', LabelLocator.boundingBox l x1 y1 x2 y2 ≠ Except.ok l') ∧
      (∀ l', LabelLocator.minDistanceToSameValue l d ≠ Except.ok l') ∧
      (∀ l', LabelLocator.minDistanceToDifferentValue l d ≠ Except.ok l') ∧
      (∀ l', LabelLocator.minDistanceToDifferentParameter l d ≠ Except.ok l')) ∧
    (∀ l', LabelLocator.boundingBox l x1 y1 x2 y2 = Except.ok l' →
      l.empty = true ∧
      l' = { l with
             itHasBBox := true
             itsBBoxX1 := x1
             itsBBoxY1 := y1
             itsBBoxX2 := x2
             itsBBoxY2 := y2 }) ∧
    (∀ l', LabelLocator.minDistanceToSameValue l d = Except.ok l' →
      l.empty = true ∧ l' = { l with itsMinDistanceToSameValue := d }) ∧
    (∀ l', LabelLocator.minDistanceToDifferentValue l d = Except.ok l' →
      l.empty = true ∧ l' = { l with itsMinDistanceToDifferentValue := d }) ∧
    (∀ l', LabelLocator.minDistanceToDifferentParameter l d = Except.ok l' →
      l.empty = true ∧
      l' = { l with itsMinDistanceToDifferentParameter := d }) := by
  refine ⟨?_, ?_, ?_, ?_, ?_, ?_⟩
  · intro hdeg l' hok
    unfold LabelLocator.boundingBox at hok
    by_cases hE : l.empty
    · rw [hE] at hok
      simp [hdeg] at hok
    · rw [eq_false_of_ne_true hE] at hok
      simp at hok
  · intro hne
    have hE := empty_false_of_entries hne
    refine ⟨?_, ?_, ?_, ?_⟩ <;> intro l' hok
    · unfold LabelLocator.boundingBox at hok
      rw [hE] at hok
      simp at hok
    · unfold LabelLocator.minDistanceToSameValue at hok
      rw [hE] at hok
      simp at hok
    · unfold LabelLocator.minDistanceToDifferentValue at hok
      rw [hE] at hok
      simp at hok
    · unfold LabelLocator.minDistanceToDifferentParameter at hok
      rw [hE] at hok
      simp at hok
  · intro l' hok
    unfold LabelLocator.boundingBox at hok
    by_cases hE : l.empty
    · rw [hE] at hok
      simp only [Bool.not_true, Bool.false_eq_true, if_false] at hok
      by_cases hdeg : (x2 ≤ x1 ∨ y2 ≤ y1)
      · rw [if_pos hdeg] at hok
        exact Except.noConfusion hok
      · rw [if_neg hdeg] at hok
        injection hok with hok
        exact ⟨hE, hok.symm⟩
    · rw [eq_false_of_ne_true hE] at hok
      simp at hok
  · intro l' hok
    unfold LabelLocator.minDistanceToSameValue at hok
    by_cases hE : l.empty
    · rw [hE] at hok
      simp only [Bool.not_true, Bool.false_eq_true, if_false] at hok
      injection hok with hok
      exact ⟨hE, hok.symm⟩
    · rw [eq_false_of_ne_true hE] at hok
      simp at hok
  · intro l' hok
    unfold LabelLocator.minDistanceToDifferentValue at hok
    by_cases hE : l.empty
    · rw [hE] at hok
      simp only [Bool.not_true, Bool.false_eq_true, if_false] at hok
      injection hok with hok
      exact ⟨hE, hok.symm⟩
    · rw [eq_false_of_ne_true hE] at hok
      simp at hok
  · intro l' hok
    unfold LabelLocator.minDistanceToDifferentParameter at hok
    by_cases hE : l.empty
    · rw [hE] at hok
      simp only [Bool.not_true, Bool.false_eq_true, if_false] at hok
      injection hok with hok
      exact ⟨hE, hok.symm⟩
    · rw [eq_false_of_ne_true hE] at hok
      simp at hok

/-- Witness for C7: a degenerate box is refused, a setter is refused once a
candidate exists, and a successful box call updates exactly the box. -/
theorem configuration_immutability_witness :
    (LabelLocator.boundingBox mkLabelLocator 0 0 0 5 ≠ Except.ok stBB) ∧
    (LabelLocator.minDistanceToSameValue scenDefaults 7 ≠
      Except.ok scenDefaults) ∧
    (mkLabelLocator.empty = true ∧
      stBB = { mkLabelLocator with
               itHasBBox := true
               itsBBoxX1 := 0
               itsBBoxY1 := 0
               itsBBoxX2 := 10
               itsBBoxY2 := 10 }) :=
  ⟨(configuration_immutability mkLabelLocator 0 0 0 5 7).1 (by decide) stBB,
   ((configuration_immutability scenDefaults 0 0 0 5 7).2.1
      (by decide)).2.1 scenDefaults,
   (configuration_immutability mkLabelLocator 0 0 10 10 7).2.2.1 stBB
     (by decide)⟩

/-- C8: cascade-removal scenario.  Built through the public interface:
group 1, subkey 1 candidates `(0,0),(10,10)`, subkey 2 candidate `(5,5)`,
`minSame = 20`, `minDifferentSubkey = 1`, no previous table, no box.
`chooseLabels` picks `(0,0)` first (insertion order), removes `(10,10)`
(distance √200 ≈ 14.1 < 20), keeps `(5,5)` (distance √50 ≈ 7.07 ≥ 1) and
chooses it for subkey 2, returning exactly
`{1: {1: [(0,0)], 2: [(5,5)]}}`. -/
theorem cascade_removal_scenario :
    ((((LabelLocator.minDistanceToSameValue mkLabelLocator 20).bind
        fun l => l.minDistanceToDifferentValue 1).bind
        fun l => l.parameter 1).bind
        fun l => ((l.add 1 0 0).bind fun l => l.add 1 10 10).bind
          fun l => l.add 2 5 5) = Except.ok scenCascade ∧
    LabelLocator.chooseLabels scenCascade =
      some (cascadeChoice,
        { scenCascade with itsCurrentCoordinates := cascadeChoice }) := by
  refine ⟨by decide, by decide⟩

/-- C9: `clear()` leaves the whole configuration untouched — the
bounding-box flag and coordinates and the three distance thresholds keep
their values — and a previously configured bounding box still silently
filters out-of-box `add` calls after `clear()`. -/
theorem clear_preserves_configuration (l : LabelLocator) (s : Rat)
    (x y : Int) :
    l.clear.itHasBBox = l.itHasBBox ∧
    l.clear.itsBBoxX1 = l.itsBBoxX1 ∧
    l.clear.itsBBoxY1 = l.itsBBoxY1 ∧
    l.clear.itsBBoxX2 = l.itsBBoxX2 ∧
    l.clear.itsBBoxY2 = l.itsBBoxY2 ∧
    l.clear.itsMinDistanceToSameValue = l.itsMinDistanceToSameValue ∧
    l.clear.itsMinDistanceToDifferentValue =
      l.itsMinDistanceToDifferentValue ∧
    l.clear.itsMinDistanceToDifferentParameter =
      l.itsMinDistanceToDifferentParameter ∧
    LabelLocator.inside l.clear x y = LabelLocator.inside l x y ∧
    (LabelLocator.inside l x y = false →
      LabelLocator.add l.clear s x y = Except.ok l.clear) := by
  refine ⟨rfl, rfl, rfl, rfl, rfl, rfl, rfl, rfl, rfl, fun h => ?_⟩
  unfold LabelLocator.add
  have hcl : LabelLocator.inside l.clear x y = false := h
  rw [hcl]
  simp

/-- Witness for C9 with the box `(0,0,10,10)` and the outside point
`(50,50)`. -/
theorem clear_preserves_configuration_witness :
    LabelLocator.inside stBB 50 50 = false ∧
    LabelLocator.add stBB.clear 1 50 50 = Except.ok stBB.clear :=
  ⟨by decide,
   (clear_preserves_configuration stBB 1 50 50).2.2.2.2.2.2.2.2.2 (by decide)⟩

/-- C10: the default-constructed locator has no bounding box, group unset
(0), empty tables and thresholds `minSame = 100`,
`minDifferentSubkey = 50`, `minDifferentGroup = 50`; with no setter ever
called, `chooseLabels` already enforces these separations (here the
default 100 removes `(10,10)`, which is only √200 ≈ 14.1 away from
`(0,0)`). -/
theorem default_constructor_state :
    mkLabelLocator.itHasBBox = false ∧
    mkLabelLocator.itsActiveParameter = 0 ∧
    mkLabelLocator.itsCurrentCoordinates = [] ∧
    mkLabelLocator.itsPreviousCoordinates = [] ∧
    mkLabelLocator.itsMinDistanceToSameValue = 100 ∧
    mkLabelLocator.itsMinDistanceToDifferentValue = 50 ∧
    mkLabelLocator.itsMinDistanceToDifferentParameter = 50 ∧
    (LabelLocator.parameter mkLabelLocator 1).bind
        (fun l => (l.add 1 0 0).bind fun l => l.add 1 10 10) =
      Except.ok scenDefaults ∧
    LabelLocator.chooseLabels scenDefaults =
      some (defaultsChoice,
        { scenDefaults with itsCurrentCoordinates := defaultsChoice }) := by
  refine ⟨rfl, rfl, rfl, rfl, by decide, by decide, by decide, by decide,
    by decide⟩
